import Mathlib

/-!
Verification of the core course-code normalization, time parsing, schedule
ingestion, matching and registration-history logic of the timeli application
(file core/views.py and core/models.py), via a shallow embedding in Lean.

Strings are modelled over their character lists; the Python string methods
used by the code (upper, lower, strip, title, split, endswith, replace,
in-substring) are embedded for the ASCII domain the timetable data lives in.
Python exceptions are modelled by an explicit exception type threaded through
Except; an except clause of the source becomes a match on the error value of
the embedded body, re-raising whatever it does not catch.
-/

namespace Timeli

/-! ## Character and string helpers (Python semantics, ASCII domain) -/

def isUpB (c : Char) : Bool := 'A' ≤ c && c ≤ 'Z'

def isLoB (c : Char) : Bool := 'a' ≤ c && c ≤ 'z'

def isDigB (c : Char) : Bool := '0' ≤ c && c ≤ '9'

/-- Whitespace characters recognised by Python str.strip and by the regex
class backslash-s, restricted to ASCII. -/
def isPySpaceB (c : Char) : Bool :=
  c = ' ' || c = '\t' || c = '\n' || c = '\x0d' || c = '\x0b' || c = '\x0c'

def pyUpperC (c : Char) : Char :=
  if isLoB c then Char.ofNat (c.toNat - 32) else c

def pyLowerC (c : Char) : Char :=
  if isUpB c then Char.ofNat (c.toNat + 32) else c

def pyUpper (s : String) : String := String.mk (s.data.map pyUpperC)

def pyLower (s : String) : String := String.mk (s.data.map pyLowerC)

/-- Python str.strip with no argument: drop leading and trailing whitespace. -/
def pyStripL (cs : List Char) : List Char :=
  ((cs.dropWhile isPySpaceB).reverse.dropWhile isPySpaceB).reverse

def pyStrip (s : String) : String := String.mk (pyStripL s.data)

def isAlphaB (c : Char) : Bool := isUpB c || isLoB c

/-- Python str.title, ASCII: first letter of every letter run uppercased,
the rest lowercased. -/
def pyTitleL : List Char → Bool → List Char
  | [], _ => []
  | c :: cs, prevAlpha =>
    if isAlphaB c then
      (if prevAlpha then pyLowerC c else pyUpperC c) :: pyTitleL cs true
    else
      c :: pyTitleL cs false

def pyTitle (s : String) : String := String.mk (pyTitleL s.data false)

/-- Python dict.get with a default, for optional string-valued JSON fields. -/
def pyGet (o : Option String) (dflt : String) : String := o.getD dflt

/-! ## Python exceptions -/

inductive PyExn where
  | valueErr
  | attributeErr
  | doesNotExist
  | recursionErr
  deriving DecidableEq, Repr

end Timeli

deriving instance DecidableEq for Except

namespace Timeli

/-! ## Clock times and strptime -/

/-- A Python datetime.time restricted to hour and minute (seconds are always
zero in every string format the code parses). -/
structure PyTime where
  hour : Nat
  minute : Nat
  deriving DecidableEq, Repr

def digitVal (c : Char) : Nat := c.toNat - '0'.toNat

/-- Hour field of strptime percent-I: regex alternation 1[0-2] before 0[1-9]
before [1-9], returning candidate (value, rest) pairs in attempt order. -/
def hourAlts : List Char → List (Nat × List Char)
  | c0 :: c1 :: rest =>
    (if c0 = '1' && '0' ≤ c1 && c1 ≤ '2' then [(10 + digitVal c1, rest)] else []) ++
    (if c0 = '0' && '1' ≤ c1 && c1 ≤ '9' then [(digitVal c1, rest)] else []) ++
    (if '1' ≤ c0 && c0 ≤ '9' then [(digitVal c0, c1 :: rest)] else [])
  | [c0] => if '1' ≤ c0 && c0 ≤ '9' then [(digitVal c0, [])] else []
  | [] => []

/-- Minute field of strptime percent-M: regex alternation [0-5] then digit,
before a single digit. -/
def minuteAlts : List Char → List (Nat × List Char)
  | c0 :: c1 :: rest =>
    (if '0' ≤ c0 && c0 ≤ '5' && isDigB c1 then [(10 * digitVal c0 + digitVal c1, rest)] else []) ++
    (if isDigB c0 then [(digitVal c0, c1 :: rest)] else [])
  | [c0] => if isDigB c0 then [(digitVal c0, [])] else []
  | [] => []

/-- AM/PM field of strptime percent-p, case-insensitive; true means PM.
The remainder of the input must be empty: strptime demands a full match. -/
def ampmEnd : List Char → Option Bool
  | [a, m] =>
    if (a = 'A' || a = 'a') && (m = 'M' || m = 'm') then some false
    else if (a = 'P' || a = 'p') && (m = 'M' || m = 'm') then some true
    else none
  | _ => none

def colonThen : List Char → Option (List Char)
  | ':' :: rest => some rest
  | _ => none

/-- Python datetime.strptime with format percent-I colon percent-M percent-p,
with the regex backtracking of the alternations made explicit. Returns the
12-hour fields folded to a 24-hour clock time. -/
def parse12 (cs : List Char) : Option PyTime :=
  (hourAlts cs).findSome? (fun hr =>
    match colonThen hr.2 with
    | none => none
    | some afterColon =>
      (minuteAlts afterColon).findSome? (fun mr =>
        match ampmEnd mr.2 with
        | none => none
        | some pm =>
          let h24 := if pm then (if hr.1 = 12 then 12 else hr.1 + 12)
                     else (if hr.1 = 12 then 0 else hr.1)
          some ⟨h24, mr.1⟩))

def parse12S (s : String) : Option PyTime := parse12 s.data

/-! ## parse_time_range (views.py lines 91-111) -/

/-- Python str.split on the three-character separator space-dash-space,
scanning left to right for non-overlapping occurrences. -/
def splitDash : List Char → List Char → List (List Char)
  | [], acc => [acc.reverse]
  | ' ' :: '-' :: ' ' :: rest, acc => acc.reverse :: splitDash rest []
  | c :: rest, acc => splitDash rest (c :: acc)

/-- The single-letter meridiem suffix rewrite of parse_time_range: a trailing
letter a or p becomes AM or PM. -/
def fixSuffix (cs : List Char) : List Char :=
  match cs.getLast? with
  | some 'a' => cs.dropLast ++ ['A', 'M']
  | some 'p' => cs.dropLast ++ ['P', 'M']
  | _ => cs

/-- Body of the try block of parse_time_range. The input is an Option String:
none models a Python None value (a missing Time key), whose .split call
raises AttributeError; a split that does not produce exactly two parts makes
the tuple unpacking raise ValueError; a failing strptime raises ValueError. -/
def parse_time_range_body (x : Option String) : Except PyExn (PyTime × PyTime) :=
  match x with
  | none => .error .attributeErr
  | some s =>
    match splitDash s.data [] with
    | [startStr, endStr] =>
      match parse12 (fixSuffix startStr), parse12 (fixSuffix endStr) with
      | some a, some b => .ok (a, b)
      | _, _ => .error .valueErr
    | _ => .error .valueErr

/-- parse_time_range: the try body with its except (ValueError, AttributeError)
clause, which returns the pair (None, None); any other exception would
propagate. -/
def parse_time_range (x : Option String) : Except PyExn (Option PyTime × Option PyTime) :=
  match parse_time_range_body x with
  | .ok (a, b) => .ok (some a, some b)
  | .error .valueErr => .ok (none, none)
  | .error .attributeErr => .ok (none, none)
  | .error e => .error e

/-! ## parse_exam_time (views.py lines 292-313) -/

/-- Substring containment, Python in-operator on strings. -/
def hasSub : List Char → List Char → Bool
  | [], pat => pat.isEmpty
  | c :: rest, pat => pat.isPrefixOf (c :: rest) || hasSub rest pat

/-- Clock time three hours later: datetime.combine with today, plus a
timedelta of 3 hours, taking .time() of the result (the date part, advanced
past midnight or not, is discarded). -/
def add3h (t : PyTime) : PyTime := ⟨(t.hour + 3) % 24, t.minute⟩

/-- Body of the try block of parse_exam_time: strip and lowercase; if the
lowercased string contains am or pm, strptime it (ValueError on failure) and
pair it with the start plus the fixed 3-hour exam duration; otherwise return
(None, None). A None input raises AttributeError at .strip(). -/
def parse_exam_time_body (x : Option String) : Except PyExn (Option PyTime × Option PyTime) :=
  match x with
  | none => .error .attributeErr
  | some s =>
    if hasSub (pyLower (pyStrip s)).data ['a', 'm']
        || hasSub (pyLower (pyStrip s)).data ['p', 'm'] then
      match parse12S (pyLower (pyStrip s)) with
      | none => .error .valueErr
      | some tm => .ok (some tm, some (add3h tm))
    else
      .ok (none, none)

/-- parse_exam_time: the try body with its except (ValueError, AttributeError)
clause returning (None, None); any other exception would propagate. -/
def parse_exam_time (x : Option String) : Except PyExn (Option PyTime × Option PyTime) :=
  match parse_exam_time_body x with
  | .ok p => .ok p
  | .error .valueErr => .ok (none, none)
  | .error .attributeErr => .ok (none, none)
  | .error e => .error e

/-! ## The course-code regex: 3-4 uppercase letters, optional single
whitespace, exactly 3 digits, searched anywhere in the string -/

/-- Take exactly n characters satisfying p, returning them and the rest. -/
def takeP (p : Char → Bool) : Nat → List Char → Option (List Char × List Char)
  | 0, cs => some ([], cs)
  | _ + 1, [] => none
  | n + 1, c :: cs =>
    if p c then (takeP p n cs).map (fun r => (c :: r.1, r.2))
    else none

/-- Attempt the pattern at the head of the list with a fixed letter-group
width k: k uppercase letters, a greedily taken optional whitespace character
(with the regex backtracking when no digits follow it), then three digits.
Returns the letter group, the digit group and the match length. -/
def matchLen (k : Nat) (cs : List Char) : Option (List Char × List Char × Nat) :=
  match takeP isUpB k cs with
  | none => none
  | some (ls, rest) =>
    match rest with
    | c :: rest2 =>
      if isPySpaceB c then
        match takeP isDigB 3 rest2 with
        | some (ds, _) => some (ls, ds, k + 4)
        | none =>
          match takeP isDigB 3 rest with
          | some (ds, _) => some (ls, ds, k + 3)
          | none => none
      else
        match takeP isDigB 3 rest with
        | some (ds, _) => some (ls, ds, k + 3)
        | none => none
    | [] => none

/-- Attempt the pattern at the head of the list: the greedy quantifier on the
letter group tries width 4 before backtracking to width 3. -/
def matchAt (cs : List Char) : Option (List Char × List Char × Nat) :=
  match matchLen 4 cs with
  | some r => some r
  | none => matchLen 3 cs

/-- re.search: leftmost match of the pattern, with its start and end offsets.
Returns (letters, digits, start, end). -/
def searchGo : List Char → Nat → Option (List Char × List Char × Nat × Nat)
  | [], _ => none
  | c :: rest, i =>
    match matchAt (c :: rest) with
    | some (ls, ds, len) => some (ls, ds, i, i + len)
    | none => searchGo rest (i + 1)

def searchCourse (cs : List Char) : Option (List Char × List Char × Nat × Nat) :=
  searchGo cs 0

/-- Python str.replace of a single space by the empty string. -/
def removeSpaces (cs : List Char) : List Char := cs.filter (fun c => c ≠ ' ')

/-! ## parse_course_string (views.py lines 116-138) -/

/-- parse_course_string: search the uppercased string for the course-code
pattern; on a match return the display code, the normalized code (both built
as letters, one space, digits) and the text after the match end, stripped;
otherwise fall back to the input itself as display code, the input with
spaces removed as normalized code, and empty details. -/
def parse_course_string (s : String) : String × String × String :=
  match searchCourse (pyUpper s).data with
  | some (ls, ds, _, e) =>
    let code := String.mk ls ++ " " ++ String.mk ds
    (code, code, pyStrip (String.mk (s.data.drop e)))
  | none => (s, String.mk (removeSpaces s.data), "")

/-! ## normalize_course_code (views.py lines 143-162) -/

/-- normalize_course_code: empty (falsy) input yields the empty string;
otherwise strip and uppercase, search for the course-code pattern, and on a
match rebuild letters, space, digits (the f-string of the source keeps the
space, its inline comment notwithstanding); with no match, return the cleaned
string with spaces removed. -/
def normalize_course_code (s : String) : String :=
  if s = "" then ""
  else
    match searchCourse (pyUpper (pyStrip s)).data with
    | some (ls, ds, _, _) => String.mk ls ++ " " ++ String.mk ds
    | none => String.mk (removeSpaces (pyUpper (pyStrip s)).data)

/-! ## Teaching-format ingestion (views.py lines 264-289) -/

/-- A teaching-format JSON array item. Every field is an Option String: none
models a missing key (or a JSON null). The Time field is read with .get and
no default, the others with an empty-string default. -/
structure Item where
  day : Option String
  time : Option String
  course : Option String
  venue : Option String
  instructors : Option String
  deriving DecidableEq, Repr

/-- A TimetableEvent row as created by ingestion (the source foreign key is
tracked separately, next to the row, in the database model below). -/
structure Event where
  day : String
  start_time : PyTime
  end_time : PyTime
  location : String
  course_code : String
  normalized_code : String
  details : String
  lecturer : String
  deriving DecidableEq, Repr

/-- The TimetableEvent.objects.create call of parse_teaching_timetable, for
an item whose time range parsed to (s, e). -/
def mkTeachingEvent (it : Item) (s e : PyTime) : Event :=
  { day := pyTitle (pyGet it.day "")
    start_time := s
    end_time := e
    location := pyGet it.venue ""
    course_code := (parse_course_string (pyGet it.course "")).1
    normalized_code := (parse_course_string (pyGet it.course "")).2.1
    details := (parse_course_string (pyGet it.course "")).2.2
    lecturer := pyGet it.instructors "" }

/-- parse_teaching_timetable: for every array item, parse the time range and
the course string; skip the item when any of start time, end time or display
code is falsy; otherwise create one event. Events are created in item order;
an exception escaping parse_time_range would abort the loop and propagate. -/
def parse_teaching_timetable : List Item → Except PyExn (List Event)
  | [] => .ok []
  | it :: rest =>
    match parse_time_range it.time with
    | .error e => .error e
    | .ok (os, oe) =>
      match parse_teaching_timetable rest with
      | .error e => .error e
      | .ok tail =>
        match os, oe with
        | some s, some e =>
          if (parse_course_string (pyGet it.course "")).1 = "" then .ok tail
          else .ok (mkTeachingEvent it s e :: tail)
        | _, _ => .ok tail

/-! ## Exam-format ingestion (views.py lines 223-261) -/

structure ExamGroup where
  level : String
  courses : List String
  deriving DecidableEq, Repr

structure ExamSession where
  time : String
  exams : List ExamGroup
  deriving DecidableEq, Repr

structure DayNode where
  day : String
  date : String
  sessions : List ExamSession
  deriving DecidableEq, Repr

structure Week where
  days : List DayNode
  deriving DecidableEq, Repr

/-- The per-course create call of parse_exam_timetable: one event for every
non-blank course string, with level and date folded into details, empty
location and lecturer. -/
def examCourseEvents (day date level : String) (s e : PyTime) (courses : List String) :
    List Event :=
  courses.filterMap (fun c =>
    if pyStrip c ≠ "" then
      some { day := day, start_time := s, end_time := e, location := "",
             course_code := pyStrip c,
             normalized_code := normalize_course_code (pyStrip c),
             details := "Level: " ++ level ++ ", Date: " ++ date, lecturer := "" }
    else none)

/-- The sessions loop of parse_exam_timetable: parse the session time, skip
the whole session when it fails, otherwise emit events for every exam group. -/
def examSessionEvents (day date : String) : List ExamSession → Except PyExn (List Event)
  | [] => .ok []
  | sess :: rest =>
    match parse_exam_time (some sess.time) with
    | .error e => .error e
    | .ok (os, oe) =>
      match examSessionEvents day date rest with
      | .error e => .error e
      | .ok tail =>
        match os, oe with
        | some s, some e =>
          .ok ((sess.exams.flatMap (fun g => examCourseEvents day date g.level s e g.courses))
               ++ tail)
        | _, _ => .ok tail

def examDayEvents : List DayNode → Except PyExn (List Event)
  | [] => .ok []
  | d :: rest =>
    match examSessionEvents (pyTitle d.day) d.date d.sessions with
    | .error e => .error e
    | .ok evs =>
      match examDayEvents rest with
      | .error e => .error e
      | .ok tail => .ok (evs ++ tail)

/-- parse_exam_timetable over the schedule array of week objects. -/
def parse_exam_timetable : List Week → Except PyExn (List Event)
  | [] => .ok []
  | w :: rest =>
    match examDayEvents w.days with
    | .error e => .error e
    | .ok evs =>
      match parse_exam_timetable rest with
      | .error e => .error e
      | .ok tail => .ok (evs ++ tail)

/-! ## The matcher (TimetableGeneratorView.post, views.py lines 746-759) -/

def daysOfWeek : List String := ["Monday", "Tuesday", "Wednesday", "Thursday", "Friday"]

/-- Sort key: Python compares datetime.time values by (hour, minute). -/
def startKey (e : Event) : Nat := e.start_time.hour * 60 + e.start_time.minute

def startLe (a b : Event) : Prop := startKey a ≤ startKey b

instance : DecidableRel startLe := fun a b => Nat.decLe (startKey a) (startKey b)

instance : IsTotal Event startLe := ⟨fun a b => Nat.le_total (startKey a) (startKey b)⟩

instance : IsTrans Event startLe := ⟨fun _ _ _ => Nat.le_trans⟩

/-- The matcher: filter the master schedule to the events whose normalized
code is in the student code set, then bucket by weekday over the fixed
five-day week, sorting each bucket by start time (Python sorted is a stable
sort; so is insertionSort, and stable sorts under one total preorder agree). -/
def matchSchedule (events : List Event) (codes : List String) : List (String × List Event) :=
  let studentEvents := events.filter (fun e => codes.contains e.normalized_code)
  daysOfWeek.map (fun d =>
    (d, List.insertionSort startLe (studentEvents.filter (fun e => e.day == d))))

/-- Dictionary lookup in the bucketed schedule. -/
def bucketOf (sched : List (String × List Event)) (d : String) : Option (List Event) :=
  (sched.find? (fun p => p.1 == d)).map (fun p => p.2)

/-! ## Database state: TimetableSource rows, TimetableEvent rows, cache -/

/-- The JSON document a source file parses to: either a top-level array of
teaching items, or an object with a schedule key holding the exam structure. -/
inductive JsonData where
  | arr (items : List Item)
  | dict (schedule : List Week)
  deriving DecidableEq, Repr

/-- A TimetableSource row. The file field models the source_json FileField:
none is a missing or unset file (either no file associated or absent from the
filesystem); some none is a present file on which json.load raises; some
(some d) is a present file parsing to d. -/
structure Src where
  id : Nat
  display_name : String
  timetable_type : String
  status : String
  events_parsed : Bool
  total_events : Nat
  file : Option (Option JsonData)
  deriving DecidableEq, Repr

/-- Database plus cache state: source rows, event rows tagged with their
source id (in creation order, the order events.all() yields), and the
per-source-id schedule cache. -/
structure St where
  sources : List Src
  events : List (Nat × Event)
  cache : List (Nat × List Event)
  deriving DecidableEq, Repr

def getSource (st : St) (sid : Nat) : Option Src :=
  st.sources.find? (fun s => s.id == sid)

def eventsOf (st : St) (sid : Nat) : List Event :=
  (st.events.filter (fun p => p.1 == sid)).map (fun p => p.2)

def updSource (st : St) (sid : Nat) (f : Src → Src) : St :=
  { st with sources := st.sources.map (fun s => if s.id == sid then f s else s) }

def deleteEvents (st : St) (sid : Nat) : St :=
  { st with events := st.events.filter (fun p => p.1 != sid) }

def addEvents (st : St) (sid : Nat) (evs : List Event) : St :=
  { st with events := st.events ++ evs.map (fun e => (sid, e)) }

def cacheGet (st : St) (sid : Nat) : Option (List Event) :=
  (st.cache.find? (fun p => p.1 == sid)).map (fun p => p.2)

def cacheSet (st : St) (sid : Nat) (l : List Event) : St :=
  { st with cache := (sid, l) :: st.cache.filter (fun p => p.1 != sid) }

/-! ## parse_and_store_master_timetable (views.py lines 167-221) -/

/-- parse_and_store_master_timetable. Callers always pass a fetched source
row, so the function takes its id and reads the current row (the none branch
of the lookup is unreachable from the call sites). Stages, as in the source:
the idempotence check (already parsed and has events: success, no change); a
missing file sets status FAILED and fails; otherwise a transaction deletes
the existing events and parses the JSON: a load or parse exception rolls the
deletion back, sets status FAILED outside the transaction and fails; success
stores the new events and sets status COMPLETED, events_parsed and
total_events. An exam-type source whose document is a dict with a schedule
key takes the exam parser; every other document goes to the teaching parser,
which raises AttributeError on a dict (iterating a dict yields its string
keys, and strings have no .get). -/
def parse_and_store_master_timetable (st : St) (sid : Nat) : St × Bool :=
  match getSource st sid with
  | none => (st, false)
  | some src =>
    if src.events_parsed && !(eventsOf st sid).isEmpty then
      (st, true)
    else
      match src.file with
      | none =>
        (updSource st sid (fun s => { s with status := "FAILED" }), false)
      | some none =>
        (updSource st sid (fun s => { s with status := "FAILED" }), false)
      | some (some data) =>
        let parsed : Except PyExn (List Event) :=
          if src.timetable_type == "exam" then
            match data with
            | .dict sched => parse_exam_timetable sched
            | .arr items => parse_teaching_timetable items
          else
            match data with
            | .arr items => parse_teaching_timetable items
            | .dict _ => .error .attributeErr
        match parsed with
        | .error _ =>
          (updSource st sid (fun s => { s with status := "FAILED" }), false)
        | .ok evs =>
          let st1 := addEvents (deleteEvents st sid) sid evs
          (updSource st1 sid (fun s =>
            { s with status := "COMPLETED", events_parsed := true,
                     total_events := evs.length }), true)

/-! ## parse_master_timetable (views.py lines 316-343) -/

/-- Body of parse_master_timetable without its except clause: return the
stored events when already parsed and present, otherwise ingest and recurse.
The fuel argument stands for the Python recursion limit: exhausting it is
the RecursionError the unbounded self-call would hit. -/
def parse_master_body (fuel : Nat) (st : St) (sid : Nat) : St × Except PyExn (List Event) :=
  match getSource st sid with
  | none => (st, .ok [])
  | some src =>
    if src.events_parsed && !(eventsOf st sid).isEmpty then
      (st, .ok (eventsOf st sid))
    else
      let (st1, ok) := parse_and_store_master_timetable st sid
      if ok then
        match fuel with
        | 0 => (st1, .error .recursionErr)
        | n + 1 => parse_master_body n st1 sid
      else
        (st1, .ok [])

/-- parse_master_timetable: the body with its except Exception clause, which
returns the events accumulated so far (always the initial empty list). -/
def parse_master_timetable (fuel : Nat) (st : St) (sid : Nat) : St × List Event :=
  match parse_master_body fuel st sid with
  | (st1, .ok l) => (st1, l)
  | (st1, .error _) => (st1, [])

/-! ## get_master_schedule_data (views.py lines 348-395) -/

/-- get_master_schedule_data up to its except clauses: probe the cache (a
missing key and a cached empty list are both falsy and fall through), fetch
the source (DoesNotExist when the id is unknown), serve and cache the stored
events when already parsed and present, otherwise ingest; on ingest success
recurse (fuel models the recursion limit as above), on failure fall back to
the legacy parser, caching a non-empty result. -/
def get_master_body (fuel : Nat) (st : St) (sid : Nat) : St × Except PyExn (List Event) :=
  let cached := (cacheGet st sid).getD []
  if !cached.isEmpty then
    (st, .ok cached)
  else
    match getSource st sid with
    | none => (st, .error .doesNotExist)
    | some src =>
      if src.events_parsed && !(eventsOf st sid).isEmpty then
        let l := eventsOf st sid
        (if !l.isEmpty then cacheSet st sid l else st, .ok l)
      else
        let (st1, ok) := parse_and_store_master_timetable st sid
        if ok then
          match fuel with
          | 0 => (st1, .error .recursionErr)
          | n + 1 => get_master_body n st1 sid
        else
          let (st2, l) := parse_master_timetable fuel st1 sid
          (if !l.isEmpty then cacheSet st2 sid l else st2, .ok l)

/-- get_master_schedule_data: the body guarded by its two except clauses,
DoesNotExist and the catch-all Exception, both returning the empty list. -/
def get_master_schedule_data (fuel : Nat) (st : St) (sid : Nat) : St × List Event :=
  match get_master_body fuel st sid with
  | (st1, .ok l) => (st1, l)
  | (st1, .error .doesNotExist) => (st1, [])
  | (st1, .error _) => (st1, [])

/-! ## save_course_registration_history (views.py lines 588-626, models.py
lines 98-111) -/

/-- A CourseRegistrationHistory row. program and level are nullable. -/
structure HistRec where
  user : Nat
  source : Nat
  course_codes : String
  display_name : String
  program : Option String
  level : Option String
  created_at : Nat
  last_used : Nat
  deriving DecidableEq, Repr

/-- Dedup key of a history row: user, source and serialized code set. -/
def histKey (r : HistRec) : Nat × Nat × String := (r.user, r.source, r.course_codes)

/-- Lexicographic code-point order on strings, the order Python sorted uses
for a list of strings. -/
def strLeB : List Char → List Char → Bool
  | [], _ => true
  | _ :: _, [] => false
  | a :: as, b :: bs =>
    if a = b then strLeB as bs else decide (a < b)

def strLe (a b : String) : Prop := strLeB a.data b.data = true

instance : DecidableRel strLe := fun a b => decEq (strLeB a.data b.data) true

/-- Python sorted on a list of strings (a stable sort; insertionSort is also
stable, and the output of a stable sort is determined by the preorder). -/
def pySorted (l : List String) : List String := List.insertionSort strLe l

/-- json.dumps of a string: quote, escaping backslash, quote and the control
characters (the named short escapes, then a four-hex-digit form). -/
def jsonQuoteC (c : Char) : List Char :=
  if c = '"' then ['\\', '"']
  else if c = '\\' then ['\\', '\\']
  else if c = '\n' then ['\\', 'n']
  else if c = '\t' then ['\\', 't']
  else if c = '\x0d' then ['\\', 'r']
  else if c = '\x08' then ['\\', 'b']
  else if c = '\x0c' then ['\\', 'f']
  else if c.toNat < 32 then
    ['\\', 'u', '0', '0',
     (Nat.digitChar (c.toNat / 16)), (Nat.digitChar (c.toNat % 16))]
  else [c]

def jsonQuote (s : String) : String :=
  String.mk ('"' :: s.data.flatMap jsonQuoteC ++ ['"'])

/-- json.dumps of a list of strings: brackets, elements separated by a comma
and a space. -/
def jsonDumpsList (l : List String) : String :=
  "[" ++ String.intercalate ", " (l.map jsonQuote) ++ "]"

/-- The generated display name used when none is passed: program part, level
part, then the source display name and the course count. -/
def genDisplayName (src : Src) (codes : List String)
    (program level : Option String) : String :=
  let programPart := match program with
    | some p => if p ≠ "" then p ++ " " else ""
    | none => ""
  let levelPart := match level with
    | some l => if l ≠ "" then "(" ++ l ++ ") " else ""
    | none => ""
  programPart ++ levelPart ++ "- " ++ src.display_name ++ " - "
    ++ toString codes.length ++ " courses"

/-- Python truthiness of an optional string. -/
def truthyS : Option String → Bool
  | none => false
  | some s => !(s = "")

/-- Replace the first row matching p by f of it, the effect of mutating and
saving the row .first() returned (the models Meta ordering by last_used
descending picks among several matches; under the uniqueness invariant at
most one row matches, so list order is faithful). -/
def replaceFirst (p : HistRec → Bool) (f : HistRec → HistRec) : List HistRec → List HistRec
  | [] => []
  | r :: rs => if p r then f r :: rs else r :: replaceFirst p f rs

/-- save_course_registration_history: compute the display name (generating
one when the argument is falsy), serialize the sorted codes, and either
update the first existing row with the same user, source and serialized
codes (refreshing last_used and display_name, and program and level only
when truthy), or append a freshly created row. now stands for
datetime.now() and the auto_now fields. -/
def save_course_registration_history (table : List HistRec) (user : Nat) (src : Src)
    (codes : List String) (displayName : Option String)
    (program level : Option String) (now : Nat) : List HistRec :=
  let dname := if truthyS displayName then displayName.getD ""
               else genDisplayName src codes program level
  let key := jsonDumpsList (pySorted codes)
  let p : HistRec → Bool := fun r =>
    r.user == user && r.source == src.id && r.course_codes == key
  if (table.find? p).isSome then
    replaceFirst p (fun r =>
      { r with last_used := now, display_name := dname,
               program := if truthyS program then program else r.program,
               level := if truthyS level then level else r.level }) table
  else
    table ++ [{ user := user, source := src.id, course_codes := key,
                display_name := dname, program := program, level := level,
                created_at := now, last_used := now }]

/-! ## Lemmas: the course-code search ignores leading and trailing
whitespace, and commutes with uppercasing on whitespace -/

lemma space_cases {c : Char} (h : isPySpaceB c = true) :
    c = ' ' ∨ c = '\t' ∨ c = '\n' ∨ c = '\x0d' ∨ c = '\x0b' ∨ c = '\x0c' := by
  simp [isPySpaceB] at h
  tauto

lemma isUpB_of_space {c : Char} (h : isPySpaceB c = true) : isUpB c = false := by
  rcases space_cases h with rfl | rfl | rfl | rfl | rfl | rfl <;> decide

lemma isDigB_of_space {c : Char} (h : isPySpaceB c = true) : isDigB c = false := by
  rcases space_cases h with rfl | rfl | rfl | rfl | rfl | rfl <;> decide

lemma pyUpperC_of_space {c : Char} (h : isPySpaceB c = true) : pyUpperC c = c := by
  rcases space_cases h with rfl | rfl | rfl | rfl | rfl | rfl <;> decide

lemma takeP_append_not (p : Char → Bool) (ws : List Char)
    (hws : ∀ c ∈ ws, p c = false) :
    ∀ (k : Nat) (cs : List Char),
      takeP p k (cs ++ ws) = (takeP p k cs).map (fun r => (r.1, r.2 ++ ws))
  | 0, cs => by simp [takeP]
  | k + 1, [] => by
    cases ws with
    | nil => simp [takeP]
    | cons w ws2 => simp [takeP, hws w (by simp)]
  | k + 1, c :: cs => by
    simp only [List.cons_append, takeP]
    by_cases h : p c
    · rw [if_pos h, if_pos h]
      simp only [List.append_eq]
      rw [takeP_append_not p ws hws k cs]
      cases takeP p k cs <;> simp
    · rw [if_neg h, if_neg h]; simp

lemma takeP_nil_ne (p : Char → Bool) {k : Nat} (hk : k ≠ 0) :
    takeP p k ([] : List Char) = none := by
  cases k with
  | zero => exact absurd rfl hk
  | succ n => simp [takeP]

lemma takeP_allNot (p : Char → Bool) {ws : List Char}
    (hws : ∀ c ∈ ws, p c = false) (k : Nat) (hk : k ≠ 0) :
    takeP p k ws = none := by
  have h := takeP_append_not p ws hws k []
  simpa [takeP_nil_ne p hk] using h

lemma matchLen_append_ws (k : Nat) (cs ws : List Char)
    (hws : ∀ c ∈ ws, isPySpaceB c = true) :
    matchLen k (cs ++ ws) = matchLen k cs := by
  have hup : ∀ c ∈ ws, isUpB c = false := fun c hc => isUpB_of_space (hws c hc)
  have hdig : ∀ c ∈ ws, isDigB c = false := fun c hc => isDigB_of_space (hws c hc)
  unfold matchLen
  rw [takeP_append_not _ _ hup]
  cases h1 : takeP isUpB k cs with
  | none => simp
  | some pr =>
    obtain ⟨ls, rest⟩ := pr
    cases rest with
    | nil =>
      cases hw : ws with
      | nil => simp
      | cons w ws2 =>
        have hws2 : ∀ c ∈ ws2, isDigB c = false := fun c hc => hdig c (by simp [hw, hc])
        have hw1 : isPySpaceB w = true := hws w (by simp [hw])
        have hd1 : isDigB w = false := hdig w (by simp [hw])
        simp only [Option.map_some', List.nil_append]
        rw [if_pos hw1, takeP_allNot isDigB hws2 3 (by decide)]
        simp [takeP, hd1]
    | cons c rest2 =>
      have hx := takeP_append_not isDigB ws hdig 3 (c :: rest2)
      simp only [List.cons_append] at hx
      simp only [Option.map_some', List.cons_append]
      by_cases hc : isPySpaceB c
      · rw [if_pos hc, if_pos hc, takeP_append_not _ _ hdig 3 rest2, hx]
        cases takeP isDigB 3 rest2 <;> cases takeP isDigB 3 (c :: rest2) <;> simp
      · rw [if_neg hc, if_neg hc, hx]
        cases takeP isDigB 3 (c :: rest2) <;> simp

lemma matchAt_append_ws (cs ws : List Char)
    (hws : ∀ c ∈ ws, isPySpaceB c = true) :
    matchAt (cs ++ ws) = matchAt cs := by
  unfold matchAt
  rw [matchLen_append_ws 4 cs ws hws, matchLen_append_ws 3 cs ws hws]

lemma matchAt_space_head {w : Char} {ws2 : List Char} (h : isPySpaceB w = true) :
    matchAt (w :: ws2) = none := by
  have hu : isUpB w = false := isUpB_of_space h
  simp [matchAt, matchLen, takeP, hu]

lemma searchGo_allspace {ws : List Char} (hws : ∀ c ∈ ws, isPySpaceB c = true) :
    ∀ i, searchGo ws i = none := by
  induction ws with
  | nil => intro i; rfl
  | cons w ws2 ih =>
    intro i
    have h1 : isPySpaceB w = true := hws w (by simp)
    simp only [searchGo, matchAt_space_head h1]
    exact ih (fun c hc => hws c (by simp [hc])) (i + 1)

lemma searchGo_append_ws (ws : List Char) (hws : ∀ c ∈ ws, isPySpaceB c = true) :
    ∀ (cs : List Char) (i : Nat), searchGo (cs ++ ws) i = searchGo cs i := by
  intro cs
  induction cs with
  | nil =>
    intro i
    simpa using searchGo_allspace hws i
  | cons c cs ih =>
    intro i
    have hm : matchAt ((c :: cs) ++ ws) = matchAt (c :: cs) :=
      matchAt_append_ws (c :: cs) ws hws
    simp only [List.cons_append] at hm ⊢
    simp only [searchGo, hm]
    cases matchAt (c :: cs) with
    | none => exact ih (i + 1)
    | some r => rfl

/-- The captured groups of the course-code search, forgetting the offsets. -/
def searchGroups (cs : List Char) : Option (List Char × List Char) :=
  (searchCourse cs).map (fun r => (r.1, r.2.1))

lemma searchGo_groups_index (cs : List Char) :
    ∀ i j, (searchGo cs i).map (fun r => (r.1, r.2.1)) =
           (searchGo cs j).map (fun r => (r.1, r.2.1)) := by
  induction cs with
  | nil => intro i j; rfl
  | cons c cs ih =>
    intro i j
    simp only [searchGo]
    cases matchAt (c :: cs) with
    | some r => rfl
    | none => exact ih (i + 1) (j + 1)

lemma searchGroups_cons_space {c : Char} {cs : List Char} (h : isPySpaceB c = true) :
    searchGroups (c :: cs) = searchGroups cs := by
  unfold searchGroups searchCourse
  simp only [searchGo, matchAt_space_head h]
  exact searchGo_groups_index cs 1 0

lemma searchGroups_dropWhile_space (cs : List Char) :
    searchGroups (cs.dropWhile isPySpaceB) = searchGroups cs := by
  induction cs with
  | nil => rfl
  | cons c cs ih =>
    by_cases h : isPySpaceB c
    · rw [List.dropWhile_cons_of_pos h, ih, searchGroups_cons_space h]
    · rw [List.dropWhile_cons_of_neg h]

lemma searchCourse_append_ws {ws : List Char} (hws : ∀ c ∈ ws, isPySpaceB c = true)
    (cs : List Char) : searchCourse (cs ++ ws) = searchCourse cs :=
  searchGo_append_ws ws hws cs 0

lemma searchGroups_spaces_append {ws1 : List Char}
    (h : ∀ c ∈ ws1, isPySpaceB c = true) (cs : List Char) :
    searchGroups (ws1 ++ cs) = searchGroups cs := by
  induction ws1 with
  | nil => rfl
  | cons w rest ih =>
    rw [List.cons_append, searchGroups_cons_space (h w (by simp))]
    exact ih (fun c hc => h c (by simp [hc]))

/-- Every string splits as leading whitespace, its stripped core, and
trailing whitespace. -/
lemma pyStripL_decomp (cs : List Char) :
    ∃ ws1 ws2, cs = ws1 ++ pyStripL cs ++ ws2 ∧
      (∀ c ∈ ws1, isPySpaceB c = true) ∧ (∀ c ∈ ws2, isPySpaceB c = true) := by
  refine ⟨cs.takeWhile isPySpaceB,
    ((cs.dropWhile isPySpaceB).reverse.takeWhile isPySpaceB).reverse, ?_, ?_, ?_⟩
  · conv_lhs => rw [← List.takeWhile_append_dropWhile isPySpaceB cs]
    rw [List.append_assoc]
    congr 1
    conv_lhs => rw [← List.reverse_reverse (cs.dropWhile isPySpaceB),
      ← List.takeWhile_append_dropWhile isPySpaceB (cs.dropWhile isPySpaceB).reverse]
    rw [List.reverse_append]
    rfl
  · exact fun c hc => List.mem_takeWhile_imp hc
  · intro c hc
    rw [List.mem_reverse] at hc
    exact List.mem_takeWhile_imp hc

lemma map_pyUpperC_spaces {ws : List Char} (h : ∀ c ∈ ws, isPySpaceB c = true) :
    ws.map pyUpperC = ws := by
  induction ws with
  | nil => rfl
  | cons w rest ih =>
    rw [List.map_cons, pyUpperC_of_space (h w (by simp)),
      ih (fun c hc => h c (by simp [hc]))]

/-- The two course-code extractors capture the same groups: the normalizer
searches the stripped-then-uppercased input, the teaching parser the merely
uppercased input, and stripping whitespace does not change the captured
groups of the leftmost match. -/
lemma searchGroups_normalize_eq (s : String) :
    searchGroups (pyUpper (pyStrip s)).data = searchGroups (pyUpper s).data := by
  obtain ⟨ws1, ws2, hdec, h1, h2⟩ := pyStripL_decomp s.data
  have hup : (pyUpper s).data = ws1 ++ (pyUpper (pyStrip s)).data ++ ws2 := by
    show s.data.map pyUpperC = ws1 ++ (pyStripL s.data).map pyUpperC ++ ws2
    conv_lhs => rw [hdec]
    rw [List.map_append, List.map_append, map_pyUpperC_spaces h1,
      map_pyUpperC_spaces h2]
  have htrail : searchGroups ((ws1 ++ (pyUpper (pyStrip s)).data) ++ ws2) =
      searchGroups (ws1 ++ (pyUpper (pyStrip s)).data) := by
    unfold searchGroups
    rw [searchCourse_append_ws h2]
  rw [hup, htrail]
  exact (searchGroups_spaces_append h1 _).symm

/-! ## Totality helpers for the two time sub-parsers -/

lemma parse_time_range_body_cases (x : Option String) :
    (∃ p, parse_time_range_body x = .ok p) ∨
      parse_time_range_body x = .error .valueErr ∨
      parse_time_range_body x = .error .attributeErr := by
  cases x with
  | none => exact Or.inr (Or.inr rfl)
  | some s =>
    simp only [parse_time_range_body]
    split
    · split
      · exact Or.inl ⟨_, rfl⟩
      · exact Or.inr (Or.inl rfl)
    · exact Or.inr (Or.inl rfl)

lemma parse_exam_time_body_cases (x : Option String) :
    parse_exam_time_body x = .ok (none, none) ∨
      (∃ a b, parse_exam_time_body x = .ok (some a, some b)) ∨
      parse_exam_time_body x = .error .valueErr ∨
      parse_exam_time_body x = .error .attributeErr := by
  cases x with
  | none => exact Or.inr (Or.inr (Or.inr rfl))
  | some s =>
    simp only [parse_exam_time_body]
    split
    · split
      · exact Or.inr (Or.inr (Or.inl rfl))
      · exact Or.inr (Or.inl ⟨_, _, rfl⟩)
    · exact Or.inl rfl

lemma parse_time_range_total (x : Option String) :
    parse_time_range x = .ok (none, none) ∨
      ∃ a b, parse_time_range x = .ok (some a, some b) := by
  rcases parse_time_range_body_cases x with ⟨⟨a, b⟩, h⟩ | h | h
  · exact Or.inr ⟨a, b, by unfold parse_time_range; rw [h]⟩
  · exact Or.inl (by unfold parse_time_range; rw [h])
  · exact Or.inl (by unfold parse_time_range; rw [h])

lemma parse_exam_time_total (x : Option String) :
    parse_exam_time x = .ok (none, none) ∨
      ∃ a b, parse_exam_time x = .ok (some a, some b) := by
  rcases parse_exam_time_body_cases x with h | ⟨a, b, h⟩ | h | h
  · exact Or.inl (by unfold parse_exam_time; rw [h])
  · exact Or.inr ⟨a, b, by unfold parse_exam_time; rw [h]⟩
  · exact Or.inl (by unfold parse_exam_time; rw [h])
  · exact Or.inl (by unfold parse_exam_time; rw [h])

/-! ## Claim theorems -/

/-- Claim C1 (code_bug evidence): the claim and the inline comment of the
source say the normalizer returns letters and digits with no space between
them, but on the matching input "act 404" normalize_course_code returns
"ACT 404", keeping a single space: the f-string on its return line joins the
two groups with a space, contradicting the comment on the same line. The
fallback and blank branches behave as claimed. -/
theorem normalize_course_code_act404_keeps_space :
    normalize_course_code "act 404" = "ACT 404" ∧
      normalize_course_code "act 404" ≠ "ACT404" ∧
      normalize_course_code "Special Topics" = "SPECIALTOPICS" ∧
      normalize_course_code "" = "" := by
  refine ⟨by decide, by decide, by decide, by decide⟩

/-- Claim C2 (counterexample): ingesting the single teaching item of the
claim does not produce the session the claim describes: the course field
"CS 101 Intro" has a two-letter department code, the regex requires three or
four letters, so course_code is not "CS 101". -/
theorem teaching_ingest_cs101_claim_false :
    parse_teaching_timetable
      [{ day := some "mon", time := some "9:00a - 10:30a",
         course := some "CS 101 Intro", venue := some "A1",
         instructors := some "Dr X" }] ≠
    .ok [{ day := "Mon", start_time := ⟨9, 0⟩, end_time := ⟨10, 30⟩,
           location := "A1", course_code := "CS 101", normalized_code := "CS101",
           details := "Intro", lecturer := "Dr X" }] := by
  decide

/-- Claim C2 (amended): ingesting the teaching item of the claim creates
exactly one session with day "Mon", start 09:00, end 10:30, location "A1"
and lecturer "Dr X" as claimed, but since "CS" has only two letters the
course-code pattern does not match, so the fallback yields course_code
"CS 101 Intro", normalized_code "CS101Intro" and empty details. -/
theorem teaching_ingest_cs101_actual :
    parse_teaching_timetable
      [{ day := some "mon", time := some "9:00a - 10:30a",
         course := some "CS 101 Intro", venue := some "A1",
         instructors := some "Dr X" }] =
    .ok [{ day := "Mon", start_time := ⟨9, 0⟩, end_time := ⟨10, 30⟩,
           location := "A1", course_code := "CS 101 Intro",
           normalized_code := "CS101Intro", details := "", lecturer := "Dr X" }] := by
  decide

/-- Claim C7: for every exam time string whose stripped lowercased form
contains am or pm and parses as a 12-hour clock time, parse_exam_time
returns that start time together with an end time three hours later on the
clock; a string without am or pm, or one that fails to parse, yields the
(None, None) pair; in particular "9:00am" yields the end time 12:00. -/
theorem exam_time_spec (s : String) (t : PyTime) :
    ((hasSub (pyLower (pyStrip s)).data ['a', 'm']
        || hasSub (pyLower (pyStrip s)).data ['p', 'm']) = true →
      parse12 (pyLower (pyStrip s)).data = some t →
      parse_exam_time (some s) = .ok (some t, some (add3h t))) ∧
    ((hasSub (pyLower (pyStrip s)).data ['a', 'm']
        || hasSub (pyLower (pyStrip s)).data ['p', 'm']) = false →
      parse_exam_time (some s) = .ok (none, none)) ∧
    (parse12 (pyLower (pyStrip s)).data = none →
      parse_exam_time (some s) = .ok (none, none)) ∧
    parse_exam_time (some "9:00am") = .ok (some ⟨9, 0⟩, some ⟨12, 0⟩) := by
  refine ⟨?_, ?_, ?_, by decide⟩
  · intro hc hp
    have hb : parse_exam_time_body (some s) = .ok (some t, some (add3h t)) := by
      simp only [parse_exam_time_body, parse12S, hc, if_true, hp]
    simp only [parse_exam_time, hb]
  · intro hc
    have hb : parse_exam_time_body (some s) = .ok (none, none) := by
      simp only [parse_exam_time_body, parse12S, hc]
      simp
    simp only [parse_exam_time, hb]
  · intro hp
    by_cases hc : (hasSub (pyLower (pyStrip s)).data ['a', 'm']
        || hasSub (pyLower (pyStrip s)).data ['p', 'm']) = true
    · have hb : parse_exam_time_body (some s) = .error .valueErr := by
        simp only [parse_exam_time_body, parse12S, hc, if_true, hp]
      simp only [parse_exam_time, hb]
    · rw [Bool.not_eq_true] at hc
      have hb : parse_exam_time_body (some s) = .ok (none, none) := by
        simp only [parse_exam_time_body, parse12S, hc]
        simp
      simp only [parse_exam_time, hb]

/-- Claim C7 witness at the concrete input "9:00am". -/
theorem exam_time_spec_witness :
    parse_exam_time (some "9:00am") = .ok (some ⟨9, 0⟩, some (add3h ⟨9, 0⟩)) :=
  (exam_time_spec "9:00am" ⟨9, 0⟩).1 (by decide) (by decide)

/-- Claim C8: both time sub-parsers are total over their failure mode: on
every input, including a None value, they return through the normal path
(your embedded exceptions are all caught by their except clauses), and any
outcome is either the (None, None) failure pair or a fully present pair. -/
theorem parsers_total_failure_mode (x : Option String) :
    (parse_time_range x = .ok (none, none) ∨
      ∃ a b, parse_time_range x = .ok (some a, some b)) ∧
    (parse_exam_time x = .ok (none, none) ∨
      ∃ a b, parse_exam_time x = .ok (some a, some b)) :=
  ⟨parse_time_range_total x, parse_exam_time_total x⟩

/-- Claim C10: whenever the uppercased input contains the course-code
pattern, the normalized code built by parse_course_string equals
normalize_course_code of the same string (both join the letter and digit
groups of the leftmost match with a space); on a no-match input the two
fallbacks differ exactly as claimed: parse_course_string removes spaces from
the raw input, normalize_course_code from the stripped uppercased input. -/
theorem normalized_code_agreement (s : String) :
    (∀ r, searchCourse (pyUpper s).data = some r →
      (parse_course_string s).2.1 = normalize_course_code s) ∧
    (searchCourse (pyUpper s).data = none → s ≠ "" →
      (parse_course_string s).2.1 = String.mk (removeSpaces s.data) ∧
      normalize_course_code s = String.mk (removeSpaces (pyUpper (pyStrip s)).data)) := by
  constructor
  · rintro ⟨ls, ds, i, e⟩ h
    have hs : s ≠ "" := by
      intro he
      have h0 : searchCourse (pyUpper "").data = none := by decide
      rw [he, h0] at h
      exact Option.noConfusion h
    have hg := searchGroups_normalize_eq s
    unfold searchGroups at hg
    rw [h] at hg
    cases hh : searchCourse (pyUpper (pyStrip s)).data with
    | none => rw [hh] at hg; exact Option.noConfusion hg
    | some r2 =>
      obtain ⟨ls2, ds2, i2, e2⟩ := r2
      rw [hh] at hg
      simp only [Option.map_some'] at hg
      have hls : ls2 = ls := congrArg Prod.fst (Option.some.inj hg)
      have hds : ds2 = ds := congrArg Prod.snd (Option.some.inj hg)
      unfold parse_course_string normalize_course_code
      rw [if_neg hs, h, hh]
      simp [hls, hds]
  · intro h hs
    have hg := searchGroups_normalize_eq s
    unfold searchGroups at hg
    rw [h] at hg
    simp only [Option.map_none'] at hg
    have h2 : searchCourse (pyUpper (pyStrip s)).data = none := by
      cases hh : searchCourse (pyUpper (pyStrip s)).data with
      | none => rfl
      | some r2 => rw [hh] at hg; simp at hg
    unfold parse_course_string normalize_course_code
    rw [if_neg hs, h, h2]
    exact ⟨rfl, rfl⟩

/-- Claim C10 witness: agreement on a matching input and the two fallbacks
on a non-matching one. -/
theorem normalized_code_agreement_witness :
    (parse_course_string "act 404 Lec").2.1 = normalize_course_code "act 404 Lec" ∧
    (parse_course_string " Special Topics ").2.1 = String.mk (removeSpaces " Special Topics ".data) := by
  refine ⟨(normalized_code_agreement "act 404 Lec").1 ("ACT".data, "404".data, 0, 7) (by decide),
    ((normalized_code_agreement " Special Topics ").2 (by decide) (by decide)).1⟩

/-! ## Claim C3: item-level skip in teaching ingestion -/

lemma parse_teaching_append (l1 l2 : List Item) :
    parse_teaching_timetable (l1 ++ l2) =
      match parse_teaching_timetable l1, parse_teaching_timetable l2 with
      | .ok a, .ok b => .ok (a ++ b)
      | .error e, _ => .error e
      | .ok _, .error e => .error e := by
  induction l1 with
  | nil =>
    simp only [List.nil_append, parse_teaching_timetable]
    cases parse_teaching_timetable l2 <;> simp
  | cons it rest ih =>
    cases htr : parse_time_range it.time with
    | error e =>
      simp only [List.cons_append, parse_teaching_timetable, htr]
    | ok p =>
      obtain ⟨os, oe⟩ := p
      simp only [List.cons_append, parse_teaching_timetable, htr, List.append_eq]
      rw [ih]
      cases h1 : parse_teaching_timetable rest with
      | error e => cases parse_teaching_timetable l2 <;> simp
      | ok lrest =>
        cases h2 : parse_teaching_timetable l2 with
        | error e =>
          cases os with
          | none => simp
          | some s =>
            cases oe with
            | none => simp
            | some e2 =>
              by_cases hd : (parse_course_string (pyGet it.course "")).1 = "" <;>
                simp [hd]
        | ok l2v =>
          cases os with
          | none => simp
          | some s =>
            cases oe with
            | none => simp
            | some e =>
              by_cases hd : (parse_course_string (pyGet it.course "")).1 = "" <;>
                simp [hd]

/-- Claim C3: in teaching ingestion every item is handled independently: an
item whose time range fails to parse, or whose extracted display code is
empty, is skipped entirely (no session, and the rest of the batch is
processed exactly as if the item were absent); an item where both succeed
contributes exactly one session, in position. -/
theorem teaching_item_skip_iff (pre post : List Item) (it : Item) :
    ((parse_time_range it.time = .ok (none, none) ∨
        (parse_course_string (pyGet it.course "")).1 = "") →
      parse_teaching_timetable (pre ++ it :: post) =
        parse_teaching_timetable (pre ++ post)) ∧
    (∀ s e, parse_time_range it.time = .ok (some s, some e) →
      (parse_course_string (pyGet it.course "")).1 ≠ "" →
      ∀ lpre lpost, parse_teaching_timetable pre = .ok lpre →
        parse_teaching_timetable post = .ok lpost →
        parse_teaching_timetable (pre ++ it :: post) =
          .ok (lpre ++ mkTeachingEvent it s e :: lpost)) := by
  constructor
  · intro hskip
    have hone : parse_teaching_timetable (it :: post) = parse_teaching_timetable post := by
      have hbody : ∀ os oe, parse_time_range it.time = .ok (os, oe) →
          (os = none ∨ oe = none ∨ (parse_course_string (pyGet it.course "")).1 = "") →
          parse_teaching_timetable (it :: post) = parse_teaching_timetable post := by
        intro os oe htr hfail
        simp only [parse_teaching_timetable, htr]
        cases hrec : parse_teaching_timetable post with
        | error e => rfl
        | ok tail =>
          rcases hfail with rfl | rfl | hd
          · rfl
          · cases os <;> rfl
          · cases os with
            | none => rfl
            | some s => cases oe with
              | none => rfl
              | some e => simp [hd]
      rcases hskip with htr | hd
      · exact hbody none none htr (Or.inl rfl)
      · rcases parse_time_range_total it.time with htr | ⟨a, b, htr⟩
        · exact hbody none none htr (Or.inl rfl)
        · exact hbody (some a) (some b) htr (Or.inr (Or.inr hd))
    rw [parse_teaching_append pre (it :: post), parse_teaching_append pre post, hone]
  · intro s e htr hd lpre lpost hpre hpost
    have hone : parse_teaching_timetable (it :: post) =
        .ok (mkTeachingEvent it s e :: lpost) := by
      simp only [parse_teaching_timetable, htr, hpost]
      simp [hd]
    rw [parse_teaching_append pre (it :: post), hone, hpre]

/-- Claim C3 witness: a batch of a good item, a bad item (unparsable time)
and another good item yields exactly the two good sessions, and dropping the
bad item gives the same result. -/
theorem teaching_item_skip_iff_witness :
    (parse_teaching_timetable
        [{ day := some "mon", time := some "9:00a - 10:30a", course := some "ACT 404",
           venue := some "A1", instructors := some "X" },
         { day := some "tue", time := some "whenever", course := some "ACT 405",
           venue := some "A2", instructors := some "Y" }] =
      parse_teaching_timetable
        [{ day := some "mon", time := some "9:00a - 10:30a", course := some "ACT 404",
           venue := some "A1", instructors := some "X" }]) ∧
    (parse_teaching_timetable
        [{ day := some "mon", time := some "9:00a - 10:30a", course := some "ACT 404",
           venue := some "A1", instructors := some "X" }] =
      .ok [mkTeachingEvent
        { day := some "mon", time := some "9:00a - 10:30a", course := some "ACT 404",
          venue := some "A1", instructors := some "X" } ⟨9, 0⟩ ⟨10, 30⟩]) := by
  constructor
  · exact (teaching_item_skip_iff
      [{ day := some "mon", time := some "9:00a - 10:30a", course := some "ACT 404",
         venue := some "A1", instructors := some "X" }]
      []
      { day := some "tue", time := some "whenever", course := some "ACT 405",
        venue := some "A2", instructors := some "Y" }).1 (Or.inl (by decide))
  · exact (teaching_item_skip_iff [] []
      { day := some "mon", time := some "9:00a - 10:30a", course := some "ACT 404",
        venue := some "A1", instructors := some "X" }).2
      ⟨9, 0⟩ ⟨10, 30⟩ (by decide) (by decide) [] [] rfl rfl

/-! ## Claim C4: the matcher -/

/-- Claim C4: the bucketed schedule has exactly the weekdays Monday-Friday
as keys, in order; the bucket of a weekday holds exactly the input sessions
whose normalized code is in the code set and whose day equals that weekday
(as a multiset), sorted ascending by start time; every session in any bucket
carries that bucket's day, so sessions with any other day string appear in
no bucket; and the output depends only on membership in the code set, making
it a deterministic function of the inputs. -/
theorem matcher_buckets (events : List Event) (codes : List String) (d : String) :
    ((matchSchedule events codes).map Prod.fst = daysOfWeek) ∧
    (d ∈ daysOfWeek →
      ∃ b, bucketOf (matchSchedule events codes) d = some b ∧
        b.Perm (events.filter (fun e =>
          codes.contains e.normalized_code && e.day == d)) ∧
        b.Sorted startLe ∧
        ∀ e ∈ b, e.day = d) ∧
    (d ∉ daysOfWeek → bucketOf (matchSchedule events codes) d = none) ∧
    (∀ codes2 : List String,
      (∀ c, codes.contains c = codes2.contains c) →
      matchSchedule events codes = matchSchedule events codes2) := by
  refine ⟨?_, ?_, ?_, ?_⟩
  · simp [matchSchedule, List.map_map, Function.comp_def]
  · intro hd
    have heq : (events.filter (fun e => codes.contains e.normalized_code)).filter
        (fun e => e.day == d) =
        events.filter (fun e => codes.contains e.normalized_code && e.day == d) := by
      rw [List.filter_filter]
      exact List.filter_congr (fun a _ => Bool.and_comm _ _)
    have hperm : (List.insertionSort startLe
        ((events.filter (fun e => codes.contains e.normalized_code)).filter
          (fun e => e.day == d))).Perm
        (events.filter (fun e => codes.contains e.normalized_code && e.day == d)) :=
      (List.perm_insertionSort startLe _).trans (heq ▸ List.Perm.refl _)
    have hsort := List.sorted_insertionSort startLe
      ((events.filter (fun e => codes.contains e.normalized_code)).filter
        (fun e => e.day == d))
    have hmem : ∀ e ∈ List.insertionSort startLe
        ((events.filter (fun e => codes.contains e.normalized_code)).filter
          (fun e => e.day == d)), e.day = d := by
      intro e he
      rw [List.mem_insertionSort] at he
      have h2 := List.of_mem_filter he
      simpa using h2
    simp only [daysOfWeek, List.mem_cons, List.not_mem_nil, or_false] at hd
    rcases hd with rfl | rfl | rfl | rfl | rfl <;> exact ⟨_, rfl, hperm, hsort, hmem⟩
  · intro hd
    simp only [daysOfWeek, List.mem_cons, List.not_mem_nil, or_false, not_or] at hd
    obtain ⟨h1, h2, h3, h4, h5⟩ := hd
    have k1 : (("Monday" : String) == d) = false := beq_eq_false_iff_ne.mpr (Ne.symm h1)
    have k2 : (("Tuesday" : String) == d) = false := beq_eq_false_iff_ne.mpr (Ne.symm h2)
    have k3 : (("Wednesday" : String) == d) = false := beq_eq_false_iff_ne.mpr (Ne.symm h3)
    have k4 : (("Thursday" : String) == d) = false := beq_eq_false_iff_ne.mpr (Ne.symm h4)
    have k5 : (("Friday" : String) == d) = false := beq_eq_false_iff_ne.mpr (Ne.symm h5)
    simp [bucketOf, matchSchedule, daysOfWeek, List.find?, k1, k2, k3, k4, k5]
  · intro codes2 hc
    simp only [matchSchedule]
    have heq2 : events.filter (fun e => codes.contains e.normalized_code) =
        events.filter (fun e => codes2.contains e.normalized_code) :=
      List.filter_congr (fun a _ => by rw [hc])
    rw [heq2]

/-- Fixture event for concrete witnesses. -/
def wEvent : Event :=
  { day := "Monday", start_time := ⟨9, 0⟩, end_time := ⟨10, 0⟩, location := "L",
    course_code := "ACT 404", normalized_code := "ACT 404", details := "",
    lecturer := "" }

/-- Claim C4 witness: on a one-event schedule, the Monday bucket carries the
event and an off-week day has no bucket. -/
theorem matcher_buckets_witness :
    (∃ b, bucketOf (matchSchedule [wEvent] ["ACT 404"]) "Monday" = some b ∧
      b.Perm ([wEvent].filter (fun e =>
        ["ACT 404"].contains e.normalized_code && e.day == "Monday")) ∧
      b.Sorted startLe ∧ ∀ e ∈ b, e.day = "Monday") ∧
    bucketOf (matchSchedule [wEvent] ["ACT 404"]) "Sunday" = none :=
  ⟨(matcher_buckets [wEvent] ["ACT 404"] "Monday").2.1 (by decide),
   (matcher_buckets [wEvent] ["ACT 404"] "Sunday").2.2.1 (by decide)⟩

/-! ## Claim C6: ingestion idempotence -/

/-- Claim C6: on a source already flagged events_parsed with persisted
sessions, ingestion is a no-op returning success — the state (sources,
events, cache) is returned unchanged — and a second call is again the same
no-op success, so calling ingest twice creates no duplicate sessions. -/
theorem ingest_idempotent (st : St) (sid : Nat) (src : Src)
    (h1 : getSource st sid = some src) (h2 : src.events_parsed = true)
    (h3 : eventsOf st sid ≠ []) :
    parse_and_store_master_timetable st sid = (st, true) ∧
    parse_and_store_master_timetable
      (parse_and_store_master_timetable st sid).1 sid = (st, true) := by
  have h4 : (eventsOf st sid).isEmpty = false := by
    cases hev : eventsOf st sid with
    | nil => exact absurd hev h3
    | cons a l => rfl
  have hmain : parse_and_store_master_timetable st sid = (st, true) := by
    simp only [parse_and_store_master_timetable, h1, h2, h4]
    rfl
  refine ⟨hmain, ?_⟩
  rw [hmain]
  exact hmain

/-- Fixture state for concrete witnesses: one completed teaching source with
one stored event. -/
def wSrc : Src :=
  { id := 1, display_name := "S", timetable_type := "teaching",
    status := "COMPLETED", events_parsed := true, total_events := 1,
    file := some (some (.arr [])) }

def wSt : St := { sources := [wSrc], events := [(1, wEvent)], cache := [] }

/-- Claim C6 witness: the concrete already-parsed state is returned unchanged
with success. -/
theorem ingest_idempotent_witness :
    parse_and_store_master_timetable wSt 1 = (wSt, true) ∧
    parse_and_store_master_timetable
      (parse_and_store_master_timetable wSt 1).1 1 = (wSt, true) :=
  ingest_idempotent wSt 1 wSrc (by decide) (by decide) (by decide)

/-! ## Claim C9: at most one history row per (user, source, code set) -/

/-- Pairwise distinctness of history dedup keys. -/
def keysDistinct (t : List HistRec) : Prop :=
  t.Pairwise (fun a b => histKey a ≠ histKey b)

lemma replaceFirst_length (p : HistRec → Bool) (f : HistRec → HistRec) :
    ∀ t : List HistRec, (replaceFirst p f t).length = t.length := by
  intro t
  induction t with
  | nil => rfl
  | cons r rs ih =>
    by_cases h : p r <;> simp [replaceFirst, h, ih]

lemma mem_replaceFirst {p : HistRec → Bool} {f : HistRec → HistRec} {b : HistRec} :
    ∀ {t : List HistRec}, b ∈ replaceFirst p f t →
      b ∈ t ∨ ∃ a ∈ t, b = f a := by
  intro t
  induction t with
  | nil => intro h; exact absurd h (List.not_mem_nil b)
  | cons r rs ih =>
    intro hb
    by_cases h : p r
    · simp only [replaceFirst, if_pos h, List.mem_cons] at hb
      rcases hb with rfl | hb
      · exact Or.inr ⟨r, by simp⟩
      · exact Or.inl (by simp [hb])
    · simp only [replaceFirst, if_neg h, List.mem_cons] at hb
      rcases hb with rfl | hb
      · exact Or.inl (by simp)
      · rcases ih hb with h2 | ⟨a, ha, rfl⟩
        · exact Or.inl (by simp [h2])
        · exact Or.inr ⟨a, by simp [ha]⟩

lemma replaceFirst_keysDistinct {p : HistRec → Bool} {f : HistRec → HistRec}
    (hf : ∀ r, histKey (f r) = histKey r) :
    ∀ {t : List HistRec}, keysDistinct t → keysDistinct (replaceFirst p f t) := by
  intro t
  induction t with
  | nil => intro _; exact List.Pairwise.nil
  | cons r rs ih =>
    intro hkd
    obtain ⟨hr, hrs⟩ := List.pairwise_cons.mp hkd
    by_cases h : p r
    · rw [replaceFirst, if_pos h]
      exact List.pairwise_cons.mpr ⟨fun b hb => (hf r) ▸ hr b hb, hrs⟩
    · rw [replaceFirst, if_neg h]
      refine List.pairwise_cons.mpr ⟨?_, ih hrs⟩
      intro b hb
      rcases mem_replaceFirst hb with h2 | ⟨a, ha, rfl⟩
      · exact hr b h2
      · exact (hf a) ▸ hr a ha

lemma replaceFirst_mem_updated {p : HistRec → Bool} {f : HistRec → HistRec} :
    ∀ {t : List HistRec} {r : HistRec}, t.find? p = some r →
      f r ∈ replaceFirst p f t := by
  intro t
  induction t with
  | nil => intro r h; exact absurd h (by simp)
  | cons a rs ih =>
    intro r h
    by_cases hpa : p a
    · rw [List.find?_cons_of_pos _ hpa, Option.some_inj] at h
      rw [replaceFirst, if_pos hpa, h]
      exact List.mem_cons_self _ _
    · rw [List.find?_cons_of_neg _ hpa] at h
      rw [replaceFirst, if_neg hpa]
      exact List.mem_cons_of_mem a (ih h)

lemma histKey_match {r : HistRec} {user : Nat} {src : Src} {key : String} :
    (r.user == user && r.source == src.id && r.course_codes == key) = true ↔
      histKey r = (user, src.id, key) := by
  simp [histKey, Prod.ext_iff, and_assoc]

/-- Claim C9: the save-history operation preserves the invariant of at most
one row per (user, source, serialized sorted code set): when a row with the
key already exists, the table length is unchanged and that first matching
row is updated in place (its last_used becomes now, its display name the
computed one); only when no row has the key is exactly one new row with the
key appended. -/
theorem history_unique_key (t : List HistRec) (user : Nat) (src : Src)
    (codes : List String) (dn prog lvl : Option String) (now : Nat)
    (hKD : keysDistinct t) :
    keysDistinct (save_course_registration_history t user src codes dn prog lvl now) ∧
    (∀ r0 ∈ t, histKey r0 = (user, src.id, jsonDumpsList (pySorted codes)) →
      (save_course_registration_history t user src codes dn prog lvl now).length =
        t.length ∧
      ∃ r ∈ save_course_registration_history t user src codes dn prog lvl now,
        histKey r = (user, src.id, jsonDumpsList (pySorted codes)) ∧
        r.last_used = now) ∧
    ((∀ r0 ∈ t, histKey r0 ≠ (user, src.id, jsonDumpsList (pySorted codes))) →
      (save_course_registration_history t user src codes dn prog lvl now).length =
        t.length + 1 ∧
      ∃ r ∈ save_course_registration_history t user src codes dn prog lvl now,
        histKey r = (user, src.id, jsonDumpsList (pySorted codes)) ∧
        r.last_used = now) := by
  set key := jsonDumpsList (pySorted codes) with hkeydef
  set p : HistRec → Bool := fun r =>
    r.user == user && r.source == src.id && r.course_codes == key with hpdef
  have hpiff : ∀ r, p r = true ↔ histKey r = (user, src.id, key) := by
    intro r
    rw [hpdef]
    exact histKey_match
  set f : HistRec → HistRec := fun r =>
    { r with last_used := now,
             display_name := if truthyS dn then dn.getD ""
               else genDisplayName src codes prog lvl,
             program := if truthyS prog then prog else r.program,
             level := if truthyS lvl then lvl else r.level } with hfdef
  cases hfind : t.find? p with
  | some r =>
    have hsave : save_course_registration_history t user src codes dn prog lvl now =
        replaceFirst p f t := by
      rw [save_course_registration_history, ← hkeydef, ← hpdef, hfind, hfdef]
      rfl
    have hfkey : ∀ r0, histKey (f r0) = histKey r0 := fun r0 => rfl
    refine ⟨?_, ?_, ?_⟩
    · rw [hsave]
      exact replaceFirst_keysDistinct hfkey hKD
    · intro r0 _ _
      refine ⟨by rw [hsave]; exact replaceFirst_length _ _ t, ?_⟩
      refine ⟨_, by rw [hsave]; exact replaceFirst_mem_updated hfind, ?_, rfl⟩
      rw [hfkey]
      exact (hpiff r).mp (List.find?_some hfind)
    · intro hnone
      have hp : p r = true := List.find?_some hfind
      have hmem : r ∈ t := List.mem_of_find?_eq_some hfind
      exact absurd ((hpiff r).mp hp) (hnone r hmem)
  | none =>
    have hnomatch : ∀ r0 ∈ t, histKey r0 ≠ (user, src.id, key) := by
      intro r0 h0 hk
      have := List.find?_eq_none.mp hfind r0 h0
      exact this ((hpiff r0).mpr hk)
    have hsave : save_course_registration_history t user src codes dn prog lvl now =
        t ++ [{ user := user, source := src.id, course_codes := key,
                display_name := if truthyS dn then dn.getD ""
                  else genDisplayName src codes prog lvl,
                program := prog, level := lvl,
                created_at := now, last_used := now }] := by
      rw [save_course_registration_history, ← hkeydef, ← hpdef, hfind]
      rfl
    refine ⟨?_, ?_, ?_⟩
    · rw [hsave]
      rw [keysDistinct, List.pairwise_append]
      refine ⟨hKD, List.pairwise_singleton _ _, ?_⟩
      intro a ha b hb
      rw [List.mem_singleton] at hb
      subst hb
      exact hnomatch a ha
    · intro r0 h0 hk
      exact absurd hk (hnomatch r0 h0)
    · intro _
      refine ⟨by rw [hsave]; simp, ?_⟩
      refine ⟨{ user := user, source := src.id, course_codes := key,
                display_name := if truthyS dn then dn.getD ""
                  else genDisplayName src codes prog lvl,
                program := prog, level := lvl,
                created_at := now, last_used := now }, ?_, rfl, rfl⟩
      rw [hsave]
      exact List.mem_append_right t (by simp)

/-- Claim C9 witness: saving into an empty table creates one row with the
key, and the invariant holds. -/
theorem history_unique_key_witness :
    keysDistinct (save_course_registration_history [] 7 wSrc ["B", "A"]
      none none none 5) ∧
    (save_course_registration_history [] 7 wSrc ["B", "A"] none none none 5).length
      = 1 ∧
    ∃ r ∈ save_course_registration_history [] 7 wSrc ["B", "A"] none none none 5,
      histKey r = (7, wSrc.id, jsonDumpsList (pySorted ["B", "A"])) ∧
      r.last_used = 5 := by
  have h := history_unique_key [] 7 wSrc ["B", "A"] none none none 5
    (List.Pairwise.nil)
  have h2 := h.2.2 (by simp)
  exact ⟨h.1, h2.1, h2.2⟩

/-! ## Claim C5: schedule lookup never raises and returns empty on
unresolvable conditions -/

lemma find?_map_upd (sid : Nat) (f : Src → Src) (hid : ∀ s, (f s).id = s.id) :
    ∀ l : List Src,
      (l.map (fun s => if s.id == sid then f s else s)).find?
          (fun s => s.id == sid) =
        (l.find? (fun s => s.id == sid)).map f := by
  intro l
  induction l with
  | nil => rfl
  | cons a l ih =>
    cases ha : (a.id == sid) with
    | true =>
      simp only [List.map_cons, ha, if_true, List.find?, hid, Option.map_some']
    | false =>
      simp only [List.map_cons, ha, Bool.false_eq_true, if_false, List.find?, ih]

lemma getSource_updSource (st : St) (sid : Nat) (f : Src → Src)
    (hid : ∀ s, (f s).id = s.id) :
    getSource (updSource st sid f) sid = (getSource st sid).map f :=
  find?_map_upd sid f hid st.sources

lemma eventsOf_updSource (st : St) (sid sid2 : Nat) (f : Src → Src) :
    eventsOf (updSource st sid f) sid2 = eventsOf st sid2 := rfl

lemma cacheGet_updSource (st : St) (sid sid2 : Nat) (f : Src → Src) :
    cacheGet (updSource st sid f) sid2 = cacheGet st sid2 := rfl

/-- Ingestion on a source whose file is missing or unparsable (and which is
not already parsed with events) marks it FAILED and reports failure. -/
lemma parse_and_store_failed_file (st : St) (sid : Nat) (src : Src)
    (hgs : getSource st sid = some src)
    (hcond : (src.events_parsed && !(eventsOf st sid).isEmpty) = false)
    (hfile : src.file = none ∨ src.file = some none) :
    parse_and_store_master_timetable st sid =
      (updSource st sid (fun s => { s with status := "FAILED" }), false) := by
  rcases hfile with h | h <;>
    simp only [parse_and_store_master_timetable, hgs, hcond,
      if_neg Bool.false_ne_true, h]

/-- The legacy parser on such a source yields the empty list. -/
lemma parse_master_failed_file (fuel : Nat) (st : St) (sid : Nat) (src : Src)
    (hgs : getSource st sid = some src)
    (hcond : (src.events_parsed && !(eventsOf st sid).isEmpty) = false)
    (hfile : src.file = none ∨ src.file = some none) :
    parse_master_timetable fuel st sid =
      (updSource st sid (fun s => { s with status := "FAILED" }), []) := by
  have hps := parse_and_store_failed_file st sid src hgs hcond hfile
  have hps1 : (parse_and_store_master_timetable st sid).1 =
      updSource st sid (fun s => { s with status := "FAILED" }) := by rw [hps]
  have hps2 : (parse_and_store_master_timetable st sid).2 = false := by rw [hps]
  have hbody : parse_master_body fuel st sid =
      (updSource st sid (fun s => { s with status := "FAILED" }), .ok []) := by
    rw [parse_master_body]
    simp only [hgs, hcond, if_neg Bool.false_ne_true, hps1, hps2]
  rw [parse_master_timetable]
  simp only [hbody]

/-- The body of the schedule lookup can only raise DoesNotExist (unknown
source id) or RecursionError (the zero-event ingest-success loop hitting the
recursion limit); both are caught by its except clauses. -/
lemma get_master_body_exns (sid : Nat) :
    ∀ (fuel : Nat) (st st2 : St) (e : PyExn),
      get_master_body fuel st sid = (st2, .error e) →
      e = .doesNotExist ∨ e = .recursionErr := by
  intro fuel
  induction fuel with
  | zero =>
    intro st st2 e h
    rw [get_master_body] at h
    by_cases hc : (!((cacheGet st sid).getD []).isEmpty) = true
    · rw [if_pos hc] at h
      simp at h
    · rw [if_neg hc] at h
      cases hgs : getSource st sid with
      | none =>
        simp only [hgs, Prod.mk.injEq, Except.error.injEq] at h
        exact Or.inl h.2.symm
      | some src =>
        simp only [hgs] at h
        by_cases hp : (src.events_parsed && !(eventsOf st sid).isEmpty) = true
        · rw [if_pos hp] at h
          simp at h
        · rw [if_neg hp] at h
          by_cases hok : ((parse_and_store_master_timetable st sid).2) = true
          · rw [if_pos hok] at h
            simp only [Prod.mk.injEq, Except.error.injEq] at h
            exact Or.inr h.2.symm
          · rw [if_neg hok] at h
            simp at h
  | succ n ih =>
    intro st st2 e h
    rw [get_master_body] at h
    by_cases hc : (!((cacheGet st sid).getD []).isEmpty) = true
    · rw [if_pos hc] at h
      simp at h
    · rw [if_neg hc] at h
      cases hgs : getSource st sid with
      | none =>
        simp only [hgs, Prod.mk.injEq, Except.error.injEq] at h
        exact Or.inl h.2.symm
      | some src =>
        simp only [hgs] at h
        by_cases hp : (src.events_parsed && !(eventsOf st sid).isEmpty) = true
        · rw [if_pos hp] at h
          simp at h
        · rw [if_neg hp] at h
          by_cases hok : ((parse_and_store_master_timetable st sid).2) = true
          · rw [if_pos hok] at h
            exact ih _ st2 e h
          · rw [if_neg hok] at h
            simp at h

/-- Claim C5: the schedule lookup is total over its failure mode: its body
raises only exceptions its handlers catch (DoesNotExist explicitly, the rest
through the catch-all), so get_master_schedule_data always returns a plain
list; a source id absent from the database yields the empty list with no
state change, and a fresh lookup of a source whose file is missing or
unparsable also yields the empty list. -/
theorem get_master_schedule_total_empty (fuel : Nat) (st : St) (sid : Nat) :
    (∀ st2 e, get_master_body fuel st sid = (st2, .error e) →
      e = .doesNotExist ∨ e = .recursionErr) ∧
    (cacheGet st sid = none → getSource st sid = none →
      get_master_schedule_data fuel st sid = (st, [])) ∧
    (cacheGet st sid = none → ∀ src, getSource st sid = some src →
      (src.events_parsed && !(eventsOf st sid).isEmpty) = false →
      (src.file = none ∨ src.file = some none) →
      (get_master_schedule_data fuel st sid).2 = []) := by
  refine ⟨get_master_body_exns sid fuel st, ?_, ?_⟩
  · intro hcache hnone
    have hbody : get_master_body fuel st sid = (st, .error .doesNotExist) := by
      rw [get_master_body]
      simp only [hcache, Option.getD_none, List.isEmpty_nil, Bool.not_true,
        if_neg Bool.false_ne_true, hnone]
    simp only [get_master_schedule_data, hbody]
  · intro hcache src hgs hcond hfile
    have hps := parse_and_store_failed_file st sid src hgs hcond hfile
    set f : Src → Src := fun s => { s with status := "FAILED" } with hfdef
    have hid : ∀ s, (f s).id = s.id := fun s => rfl
    have hgs1 : getSource (updSource st sid f) sid = some (f src) := by
      rw [getSource_updSource st sid f hid, hgs]
      rfl
    have hcond1 : ((f src).events_parsed &&
        !(eventsOf (updSource st sid f) sid).isEmpty) = false := by
      rw [eventsOf_updSource]
      exact hcond
    have hfile1 : (f src).file = none ∨ (f src).file = some none := hfile
    have hpm := parse_master_failed_file fuel (updSource st sid f) sid (f src)
      hgs1 hcond1 hfile1
    have hps1 : (parse_and_store_master_timetable st sid).1 = updSource st sid f := by
      rw [hps]
    have hps2 : (parse_and_store_master_timetable st sid).2 = false := by rw [hps]
    have hpm1 : (parse_master_timetable fuel (updSource st sid f) sid).1 =
        updSource (updSource st sid f) sid f := by rw [hpm]
    have hpm2 : (parse_master_timetable fuel (updSource st sid f) sid).2 = [] := by
      rw [hpm]
    have hbody : get_master_body fuel st sid =
        (updSource (updSource st sid f) sid f, .ok []) := by
      rw [get_master_body]
      simp only [hcache, Option.getD_none, List.isEmpty_nil, Bool.not_true,
        if_neg Bool.false_ne_true, hgs, hcond, hps1, hps2, hpm1, hpm2]
    simp only [get_master_schedule_data, hbody]

/-- Fixture states for the C5 witness: an empty database, and a database
with a single unparsed source whose file is missing. -/
def wStEmpty : St := { sources := [], events := [], cache := [] }

def wSrcNoFile : Src :=
  { id := 2, display_name := "B", timetable_type := "teaching",
    status := "PROCESSING", events_parsed := false, total_events := 0,
    file := none }

def wStNoFile : St := { sources := [wSrcNoFile], events := [], cache := [] }

/-- Claim C5 witness: unknown id gives the empty list with unchanged state; a
missing file gives the empty list; the body error on the unknown id is the
caught DoesNotExist. -/
theorem get_master_schedule_total_empty_witness :
    get_master_schedule_data 3 wStEmpty 1 = (wStEmpty, []) ∧
    (get_master_schedule_data 3 wStNoFile 2).2 = [] ∧
    (PyExn.doesNotExist = PyExn.doesNotExist ∨
      PyExn.doesNotExist = PyExn.recursionErr) :=
  ⟨(get_master_schedule_total_empty 3 wStEmpty 1).2.1 rfl rfl,
   (get_master_schedule_total_empty 3 wStNoFile 2).2.2 rfl wSrcNoFile (by decide)
     (by decide) (Or.inl (by decide)),
   (get_master_schedule_total_empty 3 wStEmpty 1).1 wStEmpty .doesNotExist
     (by decide)⟩

end Timeli

